import Mathlib

/-!
Verification of the Express tracing integration
(`packages/tracing/src/integrations/express.ts`).

The file proceeds in three layers, each translated from the source:

* a symbolic model of JavaScript function values (`Func`) and argument
  values (`Value`), over which `wrap`, `wrapUseArgs`, `patchMiddleware`,
  `instrumentMiddlewares`, `routeMiddlewares` and `Express.setupOnce`
  are embedded;
* a pure model of the transaction object (`Transaction`, `setData`) and
  of `addExpressReqToTransaction`;
* an execution model of the three wrapper bodies returned by `wrap`
  (`runWrapped2`, `runWrapped3`, `runWrapped4`, `runWrappedNext`):
  each produces the trace of observable effects (span operations, the
  call to the original handler, calls to the continuation) together
  with the updated transaction attached to the response and the
  return value of the wrapper.  The behaviour of the user-supplied handler
  is a parameter (`HBehavior`): its `name` property, its return value,
  and the argument lists with which it invokes its continuation.
-/

namespace SentryExpress

/-- Symbolic JavaScript function values.  `handler` is a user middleware
function with its declared parameter count (`Function.length`), an
identity, and its `name` property.  `nextFn` is a continuation supplied
by Express.  `wrapped2`/`wrapped3`/`wrapped4` are the three anonymous
function literals returned by `wrap` in the `case 2`/`case 3`/`case 4`
branches; their declared parameter counts are those of the literals in
the source: 2, 3 and 4.  `wrappedNext` is the anonymous closure created
inside the arity-3/4 wrappers that finishes the span and forwards to the
original continuation; the literal declares no parameters (it uses
`arguments`), so its length is 0. -/
inductive Func where
  | handler (arity : Nat) (id : Nat) (fname : String)
  | nextFn (arity : Nat) (id : Nat)
  | wrapped2 (orig : Func)
  | wrapped3 (orig : Func)
  | wrapped4 (orig : Func)
  | wrappedNext (spanPresent : Bool) (nf : Func)
deriving DecidableEq

/-- Model of `Function.length`: the declared parameter count of each function value. -/
def Func.length : Func → Nat
  | .handler a _ _ => a
  | .nextFn a _ => a
  | .wrapped2 _ => 2
  | .wrapped3 _ => 3
  | .wrapped4 _ => 4
  | .wrappedNext _ _ => 0

/-- Symbolic JavaScript values that can appear in the argument list of a
registration call and in handler invocations: strings (path prefixes),
numbers, function values, arrays, opaque request/response object
references, `undefined`, and other opaque objects. -/
inductive Value where
  | str (s : String)
  | num (n : Int)
  | fn (f : Func)
  | arr (elems : List Value)
  | reqObj (id : Nat)
  | resObj (id : Nat)
  | undef
  | obj (id : Nat)

/-- Model of `wrap` (express.ts lines 109-183), the part visible at wrap time:
`switch (fn.length)` returns the arity-matching wrapper literal for
2, 3 and 4 and otherwise throws
`` `Express middleware takes 2-4 arguments. Got: ${arity}` ``.
The JavaScript `switch` on the number is rendered as successive
equality tests. -/
def wrap (f : Func) : Except String Func :=
  if f.length = 2 then .ok (.wrapped2 f)
  else if f.length = 3 then .ok (.wrapped3 f)
  else if f.length = 4 then .ok (.wrapped4 f)
  else .error ("Express middleware takes 2-4 arguments. Got: " ++ toString f.length)

/-- Model of `Array.prototype.map` over a callback that can throw: elements are
processed left to right and the first thrown error aborts the whole map
and propagates. -/
def mapExcept (g : α → Except String β) : List α → Except String (List β)
  | [] => .ok []
  | a :: rest =>
    match g a with
    | .error e => .error e
    | .ok b =>
      match mapExcept g rest with
      | .error e => .error e
      | .ok bs => .ok (b :: bs)

/-- The inner callback of `wrapUseArgs` applied to the elements of an
array argument: `typeof a` of `function` elements are wrapped, all
other elements (including nested arrays) are returned unchanged. -/
def wrapArrayElem (a : Value) : Except String Value :=
  match a with
  | .fn f =>
    match wrap f with
    | .ok w => .ok (.fn w)
    | .error e => .error e
  | a => .ok a

/-- The outer callback of `wrapUseArgs` applied to one argument:
functions are wrapped, arrays are mapped element-wise with
`wrapArrayElem`, everything else is returned unchanged. -/
def wrapValue (arg : Value) : Except String Value :=
  match arg with
  | .fn f =>
    match wrap f with
    | .ok w => .ok (.fn w)
    | .error e => .error e
  | .arr elems =>
    match mapExcept wrapArrayElem elems with
    | .ok ws => .ok (.arr ws)
    | .error e => .error e
  | arg => .ok arg

/-- Model of `wrapUseArgs` (express.ts lines 212-229): maps `wrapValue` over the
full argument list of the intercepted registration call. -/
def wrapUseArgs (args : List Value) : Except String (List Value) :=
  mapExcept wrapValue args

/-- The call the patched registration method performs:
`originalAppCallback.apply(this, wrapUseArgs(arguments))` — the receiver
it uses and the argument list it passes to the original method. -/
structure PatchedInvoke where
  receiver : Value
  callArgs : List Value

/-- Behaviour of the patched registration method installed by
`patchMiddleware` (express.ts lines 234-243) when invoked with receiver
`thisVal` and arguments `args`: it evaluates `wrapUseArgs(arguments)`
(whose exception, if any, propagates to the caller) and then calls the
original method with the same receiver and the transformed arguments. -/
def runPatchedMiddleware (thisVal : Value) (args : List Value) :
    Except String PatchedInvoke :=
  match wrapUseArgs args with
  | .error e => .error e
  | .ok wargs => .ok { receiver := thisVal, callArgs := wargs }

/-- Symbolic registration-method slots of the Express application
object: either the original framework function or the patched wrapper
installed by `patchMiddleware` around some previous value of the slot. -/
inductive AppFn where
  | original (id : Nat)
  | patched (orig : AppFn)

/-- The application object, viewed as the assignment of a function to
each registration-method name (`use` and the HTTP verbs). -/
def Application : Type := String → AppFn

/-- Model of `patchMiddleware` (express.ts lines 234-243): replaces
`app[method]` by a wrapper around the previous `app[method]`, leaving
every other method slot untouched. -/
def patchMiddleware (app : Application) (method : String) : Application :=
  fun m => if m = method then AppFn.patched (app method) else app m

/-- Model of `instrumentMiddlewares` (express.ts lines 248-250): patches `use`. -/
def instrumentMiddlewares (app : Application) : Application :=
  patchMiddleware app "use"

/-- Model of `routeMiddlewares` (express.ts lines 255-259): patches each method
in the configured list in order (`methods.forEach(patchMiddleware)`). -/
def routeMiddlewares (app : Application) (methods : List String) : Application :=
  methods.foldl patchMiddleware app

/-- Constructor state of the integration: `options.app` and
`options.methods`, both optional (express.ts lines 72-81). -/
structure ExpressIntegration where
  appOpt : Option Application
  methodsOpt : Option (List String)

/-- Outcome of `setupOnce`: whether the missing-app diagnostic was
logged, and the application object after patching (if one was given).
`setupOnce` is a total function — no branch of it throws. -/
structure SetupResult where
  loggedError : Bool
  patchedApp : Option Application

/-- Model of `Express.setupOnce` (express.ts lines 86-93): with no app it logs
`ExpressIntegration is missing an Express instance` and returns without
touching anything; otherwise it runs `instrumentMiddlewares` and then
`routeMiddlewares` (whose `methods` parameter defaults to `[]`). -/
def setupOnce (integ : ExpressIntegration) : SetupResult :=
  match integ.appOpt with
  | none => { loggedError := true, patchedApp := none }
  | some app =>
    { loggedError := false
      patchedApp :=
        some (routeMiddlewares (instrumentMiddlewares app) (integ.methodsOpt.getD [])) }

/-- The `req.route` object: may carry a `path` property (absent or a
string, possibly empty — the source tests `req.route && req.route.path`
for truthiness). -/
structure Route where
  path : Option String
deriving DecidableEq

/-- The request object, as read by `addExpressReqToTransaction`:
`method`, the optional matched `route`, `originalUrl`, `baseUrl` and
`query` (the latter three recorded opaquely). -/
structure Request where
  method : String
  route : Option Route
  originalUrl : String
  baseUrl : String
  query : String
deriving DecidableEq

/-- Truthiness of `req.route && req.route.path`: the route object must
exist and its `path` must be a non-empty string. -/
def Request.routePathTruthy (req : Request) : Option String :=
  match req.route with
  | none => none
  | some r =>
    match r.path with
    | none => none
    | some p => if p = "" then none else some p

/-- The mutable transaction attached to the response: its
human-readable `name` and its key-value `data` record. -/
structure Transaction where
  name : String
  data : List (String × String)
deriving DecidableEq

/-- JavaScript object-spread key update, as performed by the host
`setData`: an existing key is overwritten in place, a new key is
appended at the end. -/
def setAssoc : List (String × String) → String → String → List (String × String)
  | [], k, v => [(k, v)]
  | (k1, v1) :: rest, k, v =>
    if k1 = k then (k, v) :: rest else (k1, v1) :: setAssoc rest k v

/-- Key lookup in the data record of the transaction. -/
def lookupData : List (String × String) → String → Option String
  | [], _ => none
  | (k1, v1) :: rest, k => if k1 = k then some v1 else lookupData rest k

/-- Model of `transaction.setData(key, value)` (host API). -/
def Transaction.setData (t : Transaction) (k v : String) : Transaction :=
  { t with data := setAssoc t.data k v }

/-- Model of `addExpressReqToTransaction` (express.ts lines 189-200): with no
transaction it does nothing; otherwise, if `req.route && req.route.path`
is truthy it renames the transaction to `` `${req.method} ${req.route.path}` ``,
and in every case it records `url`, `baseUrl` and `query` from the
request. -/
def addExpressReqToTransaction (transaction : Option Transaction) (req : Request) :
    Option Transaction :=
  match transaction with
  | none => none
  | some t =>
    let t1 :=
      match req.routePathTruthy with
      | some p => { t with name := req.method ++ " " ++ p }
      | none => t
    some (((t1.setData "url" req.originalUrl).setData "baseUrl" req.baseUrl).setData
      "query" req.query)

/-- Observable effects of one invocation of a wrapper returned by
`wrap`: `startChild` on the transaction, registration of the
`res.once` registration of the finish callback, `span.finish()`, the call to the
original handler (with receiver and argument values), and a call to the
original continuation (with argument values). -/
inductive Event where
  | startChild (description op : String)
  | registerFinishCallback
  | spanFinish
  | callOriginal (receiver : Value) (args : List Value)
  | callNext (nf : Func) (args : List Value)

/-- Span operations on the trace: `startChild`, `span.finish()`, and the
registration of the `finish`-event callback that will call
`span.finish()`. -/
def Event.isSpanOp : Event → Bool
  | .startChild _ _ => true
  | .spanFinish => true
  | .registerFinishCallback => true
  | _ => false

/-- Exactly the `span.finish()` events of a trace. -/
def Event.isFinish : Event → Bool
  | .spanFinish => true
  | _ => false

/-- The environment-supplied behaviour of the original handler: its
`name` property (used as the span description), its return value, and
the argument lists with which it invokes the continuation it is given
(in order; empty when it never calls it). -/
structure HBehavior where
  fname : String
  ret : Value
  nextCalls : List (List Value)

/-- Result of invoking a wrapper: the trace of observable effects, the
transaction attached to the response afterwards, and the return value
of the wrapper. -/
structure RunResult where
  trace : List Event
  resTransaction : Option Transaction
  ret : Value

/-- The closure the arity-3/4 wrappers pass in place of `next`:
`function() { if (span) { span.finish(); } return next.apply(this, arguments); }`.
Given the return value `nextRet` of the original continuation and the
arguments of the invocation, it yields the emitted events and its return
value. -/
def runWrappedNext (spanPresent : Bool) (nf : Func) (nextRet : Value)
    (args : List Value) : List Event × Value :=
  ((if spanPresent then [Event.spanFinish] else []) ++ [Event.callNext nf args], nextRet)

/-- One invocation of the `case 2` wrapper with receiver `thisVal` and
arguments `reqVal`, `resVal`, where `req` is the readable state of
the request and `resTxn` is `res.__sentry_transaction`: it reads the
transaction, runs `addExpressReqToTransaction`, and if a transaction is
present starts a child span and registers the `finish` callback; then it
returns `fn.apply(this, arguments)`. -/
def runWrapped2 (b : HBehavior) (req : Request) (thisVal reqVal resVal : Value)
    (resTxn : Option Transaction) : RunResult :=
  let resTxn2 := addExpressReqToTransaction resTxn req
  let spanEvents :=
    match resTxn with
    | some _ => [Event.startChild b.fname "middleware", Event.registerFinishCallback]
    | none => []
  { trace := spanEvents ++ [Event.callOriginal thisVal [reqVal, resVal]]
    resTransaction := resTxn2
    ret := b.ret }

/-- One invocation of the `case 3` wrapper: after reading the
transaction and running `addExpressReqToTransaction`, it evaluates
`transaction && transaction.startChild(...)` and calls the original
handler via `fn.call(this, req, res, <wrapped next>)`; the
`b.nextCalls` invocations of the wrapped continuation follow.  The
wrapper body has no `return` statement, so it returns `undefined`. -/
def runWrapped3 (b : HBehavior) (req : Request) (thisVal reqVal resVal : Value)
    (nf : Func) (nextRet : Value) (resTxn : Option Transaction) : RunResult :=
  let resTxn2 := addExpressReqToTransaction resTxn req
  let spanPresent := resTxn.isSome
  let startEvents := if spanPresent then [Event.startChild b.fname "middleware"] else []
  let innerTraces := b.nextCalls.map fun a => (runWrappedNext spanPresent nf nextRet a).1
  { trace := startEvents ++
      [Event.callOriginal thisVal
        [reqVal, resVal, Value.fn (Func.wrappedNext spanPresent nf)]] ++
      innerTraces.flatten
    resTransaction := resTxn2
    ret := Value.undef }

/-- One invocation of the `case 4` wrapper: identical to the arity-3
case except that the error value is the first positional argument and is
passed through to the original handler unmodified. -/
def runWrapped4 (b : HBehavior) (req : Request) (thisVal errVal reqVal resVal : Value)
    (nf : Func) (nextRet : Value) (resTxn : Option Transaction) : RunResult :=
  let resTxn2 := addExpressReqToTransaction resTxn req
  let spanPresent := resTxn.isSome
  let startEvents := if spanPresent then [Event.startChild b.fname "middleware"] else []
  let innerTraces := b.nextCalls.map fun a => (runWrappedNext spanPresent nf nextRet a).1
  { trace := startEvents ++
      [Event.callOriginal thisVal
        [errVal, reqVal, resVal, Value.fn (Func.wrappedNext spanPresent nf)]] ++
      innerTraces.flatten
    resTransaction := resTxn2
    ret := Value.undef }

/-! ### Helper lemmas -/

theorem mapExcept_ok_get (g : α → Except String β) :
    ∀ (l : List α) (w : List β), mapExcept g l = Except.ok w →
      w.length = l.length ∧
      ∀ (j : Nat) (hj : j < l.length) (hj2 : j < w.length),
        g (l.get ⟨j, hj⟩) = Except.ok (w.get ⟨j, hj2⟩) := by
  intro l
  induction l with
  | nil =>
    intro w h
    simp only [mapExcept, Except.ok.injEq] at h
    subst h
    exact ⟨rfl, fun j hj hj2 => absurd hj (Nat.not_lt_zero j)⟩
  | cons a rest ih =>
    intro w h
    cases hga : g a with
    | error e => simp [mapExcept, hga] at h
    | ok b =>
      cases hmr : mapExcept g rest with
      | error e => simp [mapExcept, hga, hmr] at h
      | ok bs =>
        simp only [mapExcept, hga, hmr, Except.ok.injEq] at h
        subst h
        obtain ⟨hlen, hget⟩ := ih bs hmr
        refine ⟨by simp [hlen], ?_⟩
        intro j hj hj2
        cases j with
        | zero => simpa using hga
        | succ n =>
          simpa using hget n (Nat.lt_of_succ_lt_succ hj) (Nat.lt_of_succ_lt_succ hj2)

theorem mapExcept_error_of_mem (g : α → Except String β) (l : List α) (a : α) (e : String)
    (ha : a ∈ l) (hg : g a = Except.error e) :
    ∃ e2, mapExcept g l = Except.error e2 := by
  induction l with
  | nil => exact absurd ha (List.not_mem_nil a)
  | cons x xs ih =>
    cases hx : g x with
    | error e0 => exact ⟨e0, by simp [mapExcept, hx]⟩
    | ok b =>
      rcases List.mem_cons.mp ha with rfl | hmem
      · exact absurd hg (by simp [hx])
      · obtain ⟨e2, h2⟩ := ih hmem
        exact ⟨e2, by simp [mapExcept, hx, h2]⟩

/-- An element of an array argument is mapped correctly: a function
value is replaced by its (successfully) wrapped version, any other
value — including a nested array — is passed through unchanged. -/
def ElemWrapped (v w : Value) : Prop :=
  (∃ f wf, v = Value.fn f ∧ wrap f = Except.ok wf ∧ w = Value.fn wf) ∨
  ((∀ f, v ≠ Value.fn f) ∧ w = v)

/-- A top-level argument of the registration call is mapped correctly:
a function value is replaced by its wrapped version, an array is
replaced by the same-length array whose elements satisfy `ElemWrapped`
position-wise, and any other value is passed through unchanged. -/
def ArgWrapped (v w : Value) : Prop :=
  (∃ f wf, v = Value.fn f ∧ wrap f = Except.ok wf ∧ w = Value.fn wf) ∨
  (∃ l wl, v = Value.arr l ∧ w = Value.arr wl ∧ wl.length = l.length ∧
    ∀ (k : Nat) (hk : k < l.length) (hk2 : k < wl.length),
      ElemWrapped (l.get ⟨k, hk⟩) (wl.get ⟨k, hk2⟩)) ∨
  ((∀ f, v ≠ Value.fn f) ∧ (∀ l, v ≠ Value.arr l) ∧ w = v)

theorem wrapArrayElem_elemWrapped (v w : Value) (h : wrapArrayElem v = Except.ok w) :
    ElemWrapped v w := by
  cases v with
  | fn f =>
    cases hw : wrap f with
    | ok wf =>
      simp only [wrapArrayElem, hw, Except.ok.injEq] at h
      exact Or.inl ⟨f, wf, rfl, hw, h.symm⟩
    | error e => simp [wrapArrayElem, hw] at h
  | str s =>
    simp only [wrapArrayElem, Except.ok.injEq] at h
    exact Or.inr ⟨fun f hf => by simp at hf, h.symm⟩
  | num n =>
    simp only [wrapArrayElem, Except.ok.injEq] at h
    exact Or.inr ⟨fun f hf => by simp at hf, h.symm⟩
  | arr l =>
    simp only [wrapArrayElem, Except.ok.injEq] at h
    exact Or.inr ⟨fun f hf => by simp at hf, h.symm⟩
  | reqObj i =>
    simp only [wrapArrayElem, Except.ok.injEq] at h
    exact Or.inr ⟨fun f hf => by simp at hf, h.symm⟩
  | resObj i =>
    simp only [wrapArrayElem, Except.ok.injEq] at h
    exact Or.inr ⟨fun f hf => by simp at hf, h.symm⟩
  | undef =>
    simp only [wrapArrayElem, Except.ok.injEq] at h
    exact Or.inr ⟨fun f hf => by simp at hf, h.symm⟩
  | obj i =>
    simp only [wrapArrayElem, Except.ok.injEq] at h
    exact Or.inr ⟨fun f hf => by simp at hf, h.symm⟩

theorem wrapValue_argWrapped (v w : Value) (h : wrapValue v = Except.ok w) :
    ArgWrapped v w := by
  cases v with
  | fn f =>
    cases hw : wrap f with
    | ok wf =>
      simp only [wrapValue, hw, Except.ok.injEq] at h
      exact Or.inl ⟨f, wf, rfl, hw, h.symm⟩
    | error e => simp [wrapValue, hw] at h
  | arr elems =>
    cases hm : mapExcept wrapArrayElem elems with
    | error e => simp [wrapValue, hm] at h
    | ok ws =>
      simp only [wrapValue, hm, Except.ok.injEq] at h
      obtain ⟨hlen, hget⟩ := mapExcept_ok_get wrapArrayElem elems ws hm
      exact Or.inr (Or.inl ⟨elems, ws, rfl, h.symm, hlen,
        fun k hk hk2 => wrapArrayElem_elemWrapped _ _ (hget k hk hk2)⟩)
  | str s =>
    simp only [wrapValue, Except.ok.injEq] at h
    exact Or.inr (Or.inr ⟨fun f hf => by simp at hf, fun l hl => by simp at hl, h.symm⟩)
  | num n =>
    simp only [wrapValue, Except.ok.injEq] at h
    exact Or.inr (Or.inr ⟨fun f hf => by simp at hf, fun l hl => by simp at hl, h.symm⟩)
  | reqObj i =>
    simp only [wrapValue, Except.ok.injEq] at h
    exact Or.inr (Or.inr ⟨fun f hf => by simp at hf, fun l hl => by simp at hl, h.symm⟩)
  | resObj i =>
    simp only [wrapValue, Except.ok.injEq] at h
    exact Or.inr (Or.inr ⟨fun f hf => by simp at hf, fun l hl => by simp at hl, h.symm⟩)
  | undef =>
    simp only [wrapValue, Except.ok.injEq] at h
    exact Or.inr (Or.inr ⟨fun f hf => by simp at hf, fun l hl => by simp at hl, h.symm⟩)
  | obj i =>
    simp only [wrapValue, Except.ok.injEq] at h
    exact Or.inr (Or.inr ⟨fun f hf => by simp at hf, fun l hl => by simp at hl, h.symm⟩)

theorem lookupData_setAssoc_self (l : List (String × String)) (k v : String) :
    lookupData (setAssoc l k v) k = some v := by
  induction l with
  | nil => simp [setAssoc, lookupData]
  | cons p rest ih =>
    obtain ⟨k1, v1⟩ := p
    by_cases h : k1 = k
    · simp [setAssoc, h, lookupData]
    · simp [setAssoc, h, lookupData, ih]

theorem lookupData_setAssoc_ne (l : List (String × String)) (k k2 v : String)
    (h : k ≠ k2) : lookupData (setAssoc l k v) k2 = lookupData l k2 := by
  induction l with
  | nil => simp [setAssoc, lookupData, h]
  | cons p rest ih =>
    obtain ⟨k1, v1⟩ := p
    by_cases h1 : k1 = k
    · subst h1
      simp [setAssoc, lookupData, h]
    · simp only [setAssoc, if_neg h1, lookupData]
      by_cases h2 : k1 = k2
      · simp [h2]
      · simp [h2, ih]

theorem routeMiddlewares_not_mem (methods : List String) :
    ∀ (app : Application) (m : String), m ∉ methods →
      routeMiddlewares app methods m = app m := by
  induction methods with
  | nil => intro app m _; rfl
  | cons x xs ih =>
    intro app m hm
    have hne : m ≠ x := fun h => hm (h ▸ List.mem_cons_self x xs)
    have hnm : m ∉ xs := fun h => hm (List.mem_cons_of_mem x h)
    show routeMiddlewares (patchMiddleware app x) xs m = app m
    rw [ih (patchMiddleware app x) m hnm]
    simp [patchMiddleware, hne]

theorem countP_isFinish_inner (nf : Func) (calls : List (List Value)) :
    ((calls.map fun a => [Event.spanFinish, Event.callNext nf a]).flatten).countP
      Event.isFinish = calls.length := by
  induction calls with
  | nil => rfl
  | cons c cs ih =>
    simp [List.map_cons, List.flatten_cons, List.countP_append, ih,
      List.countP_cons, List.countP_nil, Event.isFinish, List.length_cons]
    try omega

/-! ### Claims -/

/-- C1: for every handler function whose declared arity is 2, 3 or 4,
`wrap(fn)` succeeds and returns a replacement function whose declared
parameter count equals that of the original. -/
theorem c1_wrap_preserves_arity (f : Func)
    (h : f.length = 2 ∨ f.length = 3 ∨ f.length = 4) :
    ∃ w, wrap f = Except.ok w ∧ w.length = f.length := by
  rcases h with h | h | h
  · exact ⟨Func.wrapped2 f, by simp [wrap, h], by rw [h]; rfl⟩
  · exact ⟨Func.wrapped3 f, by simp [wrap, h], by rw [h]; rfl⟩
  · exact ⟨Func.wrapped4 f, by simp [wrap, h], by rw [h]; rfl⟩

/-- Witness for C1 at the concrete arity-3 handler. -/
theorem c1_wrap_preserves_arity_witness :
    ((Func.handler 3 0 "mw").length = 2 ∨ (Func.handler 3 0 "mw").length = 3 ∨
      (Func.handler 3 0 "mw").length = 4) ∧
    ∃ w, wrap (Func.handler 3 0 "mw") = Except.ok w ∧
      w.length = (Func.handler 3 0 "mw").length :=
  ⟨Or.inr (Or.inl rfl), c1_wrap_preserves_arity (Func.handler 3 0 "mw") (Or.inr (Or.inl rfl))⟩

/-- C2: for every function whose declared arity is outside {2,3,4},
`wrap(fn)` throws the `Express middleware takes 2-4 arguments` error
synchronously (it does not return a wrapper), and the error propagates
out of the patched registration method whenever such a function appears
among its arguments. -/
theorem c2_wrap_rejects_bad_arity (f : Func)
    (h2 : f.length ≠ 2) (h3 : f.length ≠ 3) (h4 : f.length ≠ 4) :
    wrap f = Except.error
      ("Express middleware takes 2-4 arguments. Got: " ++ toString f.length) ∧
    ∀ (thisVal : Value) (args : List Value), Value.fn f ∈ args →
      ∃ e, runPatchedMiddleware thisVal args = Except.error e := by
  have hw : wrap f = Except.error
      ("Express middleware takes 2-4 arguments. Got: " ++ toString f.length) := by
    simp [wrap, h2, h3, h4]
  refine ⟨hw, ?_⟩
  intro thisVal args hmem
  have hv : wrapValue (Value.fn f) = Except.error
      ("Express middleware takes 2-4 arguments. Got: " ++ toString f.length) := by
    simp [wrapValue, hw]
  obtain ⟨e2, he2⟩ := mapExcept_error_of_mem wrapValue args (Value.fn f) _ hmem hv
  exact ⟨e2, by simp [runPatchedMiddleware, wrapUseArgs, he2]⟩

/-- Witness for C2 at a concrete arity-5 handler passed to the patched
registration method. -/
theorem c2_wrap_rejects_bad_arity_witness :
    ((Func.handler 5 0 "bad").length ≠ 2 ∧ (Func.handler 5 0 "bad").length ≠ 3 ∧
      (Func.handler 5 0 "bad").length ≠ 4) ∧
    (wrap (Func.handler 5 0 "bad") = Except.error
      ("Express middleware takes 2-4 arguments. Got: " ++
        toString (Func.handler 5 0 "bad").length) ∧
    ∀ (thisVal : Value) (args : List Value), Value.fn (Func.handler 5 0 "bad") ∈ args →
      ∃ e, runPatchedMiddleware thisVal args = Except.error e) :=
  ⟨⟨by decide, by decide, by decide⟩,
    c2_wrap_rejects_bad_arity (Func.handler 5 0 "bad") (by decide) (by decide) (by decide)⟩

/-- C9: with no application object supplied, `setupOnce` logs the
missing-instance diagnostic and returns without patching anything; it is
a total function, so no exception is raised. -/
theorem c9_no_app_noop (methodsOpt : Option (List String)) :
    setupOnce { appOpt := none, methodsOpt := methodsOpt } =
      { loggedError := true, patchedApp := none } := rfl

/-- C10: the arity-2 wrapper returns the return value of the original
handler; the arity-3 and arity-4 wrapper bodies contain no `return`
statement, so they return `undefined` regardless of what the handler
returns; the wrapped continuation does return what the original
continuation returns. -/
theorem c10_return_values (b : HBehavior) (req : Request)
    (thisVal errVal reqVal resVal : Value) (nf : Func) (nextRet : Value)
    (resTxn : Option Transaction) (sp : Bool) (args : List Value) :
    (runWrapped2 b req thisVal reqVal resVal resTxn).ret = b.ret ∧
    (runWrapped3 b req thisVal reqVal resVal nf nextRet resTxn).ret = Value.undef ∧
    (runWrapped4 b req thisVal errVal reqVal resVal nf nextRet resTxn).ret = Value.undef ∧
    (runWrappedNext sp nf nextRet args).2 = nextRet :=
  ⟨rfl, rfl, rfl, rfl⟩

/-- The transaction state that `addExpressReqToTransaction` leaves
behind, relative to a request and the prior transaction `t`: renamed to
`"{METHOD} {route-path}"` exactly when the request exposes a truthy
matched route path (name untouched otherwise), and `url`, `baseUrl` and
`query` recorded from the fields `originalUrl`, `baseUrl` and `query`
of the request. -/
def ReqMetadataRecorded (req : Request) (t t2 : Transaction) : Prop :=
  t2.name = (match req.routePathTruthy with
    | some p => req.method ++ " " ++ p
    | none => t.name) ∧
  lookupData t2.data "url" = some req.originalUrl ∧
  lookupData t2.data "baseUrl" = some req.baseUrl ∧
  lookupData t2.data "query" = some req.query

theorem addExpressReq_transaction_state (req : Request) (t : Transaction) :
    ∃ t2, addExpressReqToTransaction (some t) req = some t2 ∧
      ReqMetadataRecorded req t t2 := by
  refine ⟨_, rfl, ?_, ?_, ?_, ?_⟩
  · cases hp : req.routePathTruthy with
    | some p => simp [Transaction.setData]
    | none => simp [Transaction.setData]
  · simp only [Transaction.setData]
    rw [lookupData_setAssoc_ne _ _ _ _ (by decide),
      lookupData_setAssoc_ne _ _ _ _ (by decide), lookupData_setAssoc_self]
  · simp only [Transaction.setData]
    rw [lookupData_setAssoc_ne _ _ _ _ (by decide), lookupData_setAssoc_self]
  · simp only [Transaction.setData]
    rw [lookupData_setAssoc_self]

/-- C3: when a transaction is attached to the response, invoking a
wrapped handler of any arity (2, 3 or 4) renames the transaction to
`"{METHOD} {route-path}"` whenever the request exposes a truthy matched
route path (and leaves the name alone otherwise), and in all cases
records `url`, `baseUrl` and `query` on the transaction from the
fields `originalUrl`, `baseUrl` and `query` of the request, regardless
of whether the rename occurred. -/
theorem c3_transaction_metadata (b : HBehavior) (req : Request) (t : Transaction)
    (thisVal errVal reqVal resVal : Value) (nf : Func) (nextRet : Value) :
    (∃ t2, (runWrapped2 b req thisVal reqVal resVal (some t)).resTransaction
        = some t2 ∧ ReqMetadataRecorded req t t2) ∧
    (∃ t2, (runWrapped3 b req thisVal reqVal resVal nf nextRet (some t)).resTransaction
        = some t2 ∧ ReqMetadataRecorded req t t2) ∧
    (∃ t2, (runWrapped4 b req thisVal errVal reqVal resVal nf nextRet
        (some t)).resTransaction = some t2 ∧ ReqMetadataRecorded req t t2) := by
  obtain ⟨t2, ht2, hrec⟩ := addExpressReq_transaction_state req t
  exact ⟨⟨t2, ht2, hrec⟩, ⟨t2, ht2, hrec⟩, ⟨t2, ht2, hrec⟩⟩

/-- C4 counterexample: with no transaction attached, the arity-3
wrapper does not invoke the original handler with unchanged argument
values — the continuation slot holds the freshly created wrapping
closure, not the original continuation, so no `callOriginal` event with
the original three argument values occurs in the trace. -/
theorem c4_counterexample :
    Event.callOriginal Value.undef
        [Value.reqObj 0, Value.resObj 0, Value.fn (Func.nextFn 0 0)] ∉
      (runWrapped3 { fname := "mw", ret := Value.undef, nextCalls := [] }
        { method := "GET", route := none, originalUrl := "/u", baseUrl := "", query := "" }
        Value.undef (Value.reqObj 0) (Value.resObj 0) (Func.nextFn 0 0) Value.undef
        none).trace := by
  have ht : (runWrapped3 { fname := "mw", ret := Value.undef, nextCalls := [] }
      { method := "GET", route := none, originalUrl := "/u", baseUrl := "", query := "" }
      Value.undef (Value.reqObj 0) (Value.resObj 0) (Func.nextFn 0 0) Value.undef
      none).trace =
      [Event.callOriginal Value.undef [Value.reqObj 0, Value.resObj 0,
        Value.fn (Func.wrappedNext false (Func.nextFn 0 0))]] := rfl
  rw [ht]
  intro hmem
  simp at hmem

theorem filter_isSpanOp_callNext (nf : Func) (calls : List (List Value)) :
    ((calls.map fun a => [Event.callNext nf a]).flatten).filter Event.isSpanOp = [] := by
  induction calls with
  | nil => rfl
  | cons c cs ih => simp [Event.isSpanOp, ih]

/-- C4 (amended): with no transaction attached, every wrapper still
invokes the original handler exactly once with the same receiver, the
same argument count and order, the request/response (and error) values
unchanged, performs no span operation, and does not touch the (absent)
transaction; the only change to the arguments is that for arities 3
and 4 the continuation slot holds the wrapping closure, which — with no
span present — forwards every invocation to the original continuation
with unchanged arguments and returns its return value. -/
theorem c4_no_transaction (b : HBehavior) (req : Request)
    (thisVal errVal reqVal resVal : Value) (nf : Func) (nextRet : Value) :
    ((runWrapped2 b req thisVal reqVal resVal none).trace =
        [Event.callOriginal thisVal [reqVal, resVal]] ∧
      (runWrapped2 b req thisVal reqVal resVal none).resTransaction = none) ∧
    ((runWrapped3 b req thisVal reqVal resVal nf nextRet none).trace =
        Event.callOriginal thisVal
            [reqVal, resVal, Value.fn (Func.wrappedNext false nf)] ::
          (b.nextCalls.map fun a => [Event.callNext nf a]).flatten ∧
      (runWrapped3 b req thisVal reqVal resVal nf nextRet none).resTransaction = none ∧
      (runWrapped3 b req thisVal reqVal resVal nf nextRet none).trace.filter
        Event.isSpanOp = []) ∧
    ((runWrapped4 b req thisVal errVal reqVal resVal nf nextRet none).trace =
        Event.callOriginal thisVal
            [errVal, reqVal, resVal, Value.fn (Func.wrappedNext false nf)] ::
          (b.nextCalls.map fun a => [Event.callNext nf a]).flatten ∧
      (runWrapped4 b req thisVal errVal reqVal resVal nf nextRet none).resTransaction
        = none ∧
      (runWrapped4 b req thisVal errVal reqVal resVal nf nextRet none).trace.filter
        Event.isSpanOp = []) ∧
    (∀ args, runWrappedNext false nf nextRet args =
      ([Event.callNext nf args], nextRet)) := by
  refine ⟨⟨rfl, rfl⟩, ⟨rfl, rfl, ?_⟩, ⟨rfl, rfl, ?_⟩, fun args => rfl⟩
  · show (Event.callOriginal thisVal
        [reqVal, resVal, Value.fn (Func.wrappedNext false nf)] ::
      (b.nextCalls.map fun a => [Event.callNext nf a]).flatten).filter
        Event.isSpanOp = []
    simp [List.filter_cons, Event.isSpanOp, filter_isSpanOp_callNext]
  · show (Event.callOriginal thisVal
        [errVal, reqVal, resVal, Value.fn (Func.wrappedNext false nf)] ::
      (b.nextCalls.map fun a => [Event.callNext nf a]).flatten).filter
        Event.isSpanOp = []
    simp [List.filter_cons, Event.isSpanOp, filter_isSpanOp_callNext]

/-- C5 counterexample: with a transaction present, an arity-3 handler
that calls its continuation twice makes the wrapped continuation call
`span.finish()` twice in a single invocation of the wrapped handler —
the count of finish events is 2, not 1. -/
theorem c5_counterexample :
    ((runWrapped3 { fname := "mw", ret := Value.undef, nextCalls := [[], []] }
        { method := "GET", route := none, originalUrl := "/u", baseUrl := "", query := "" }
        Value.undef (Value.reqObj 1) (Value.resObj 1) (Func.nextFn 0 1) Value.undef
        (some { name := "t0", data := [] })).trace.countP Event.isFinish = 2) ∧
    ¬ ((runWrapped3 { fname := "mw", ret := Value.undef, nextCalls := [[], []] }
        { method := "GET", route := none, originalUrl := "/u", baseUrl := "", query := "" }
        Value.undef (Value.reqObj 1) (Value.resObj 1) (Func.nextFn 0 1) Value.undef
        (some { name := "t0", data := [] })).trace.countP Event.isFinish = 1) :=
  ⟨by decide, by decide⟩

/-- C5 (amended): with a transaction present, the wrapped continuation
finishes the span immediately before forwarding control to the original
continuation, once per invocation of the wrapped continuation: across
one invocation of the arity-3 wrapped handler, `span.finish()` runs
exactly as many times as the handler invokes the continuation (zero
times if it never does, twice if it calls it twice). -/
theorem c5_finish_per_continuation (b : HBehavior) (req : Request)
    (thisVal reqVal resVal : Value) (nf : Func) (nextRet : Value) (t : Transaction) :
    (runWrapped3 b req thisVal reqVal resVal nf nextRet (some t)).trace.countP
        Event.isFinish = b.nextCalls.length ∧
    ∀ args, runWrappedNext true nf nextRet args =
      ([Event.spanFinish, Event.callNext nf args], nextRet) := by
  constructor
  · have ht : (runWrapped3 b req thisVal reqVal resVal nf nextRet (some t)).trace =
        Event.startChild b.fname "middleware" ::
          Event.callOriginal thisVal
            [reqVal, resVal, Value.fn (Func.wrappedNext true nf)] ::
          (b.nextCalls.map fun a => [Event.spanFinish, Event.callNext nf a]).flatten :=
      rfl
    rw [ht, List.countP_cons, List.countP_cons, countP_isFinish_inner]
    simp [Event.isFinish]
  · intro args
    rfl

/-- C6: an array argument of a patched registration call is mapped to
an array of the same length and order in which every function element
is individually wrapped and every non-function element — the string
path prefix as well as any nested array, which is not descended into —
is passed through unchanged. -/
theorem c6_array_argument (args : List Value) (i : Nat) (l w : List Value)
    (hi : args.get? i = some (Value.arr l)) (hw : wrapUseArgs args = Except.ok w) :
    ∃ wl, w.get? i = some (Value.arr wl) ∧ wl.length = l.length ∧
      ∀ (j : Nat) (hj : j < l.length) (hj2 : j < wl.length),
        ElemWrapped (l.get ⟨j, hj⟩) (wl.get ⟨j, hj2⟩) := by
  obtain ⟨hlen, hget⟩ := mapExcept_ok_get wrapValue args w hw
  obtain ⟨hilt, hgeti⟩ := List.get?_eq_some.mp hi
  have hi2w : i < w.length := hlen ▸ hilt
  have hwv := hget i hilt hi2w
  rw [hgeti] at hwv
  cases hm : mapExcept wrapArrayElem l with
  | error e => simp [wrapValue, hm] at hwv
  | ok wl =>
    simp only [wrapValue, hm, Except.ok.injEq] at hwv
    obtain ⟨hlen2, hget2⟩ := mapExcept_ok_get wrapArrayElem l wl hm
    refine ⟨wl, ?_, hlen2,
      fun j hj hj2 => wrapArrayElem_elemWrapped _ _ (hget2 j hj hj2)⟩
    rw [List.get?_eq_some]
    exact ⟨hi2w, hwv.symm⟩

/-- Witness for C6 at the example list `[fnA, "/path", fnB]`. -/
theorem c6_array_argument_witness :
    [Value.arr [Value.fn (Func.handler 2 10 "fnA"), Value.str "/path",
        Value.fn (Func.handler 3 11 "fnB")]].get? 0 =
      some (Value.arr [Value.fn (Func.handler 2 10 "fnA"), Value.str "/path",
        Value.fn (Func.handler 3 11 "fnB")]) ∧
    wrapUseArgs [Value.arr [Value.fn (Func.handler 2 10 "fnA"), Value.str "/path",
        Value.fn (Func.handler 3 11 "fnB")]] =
      Except.ok [Value.arr [Value.fn (Func.wrapped2 (Func.handler 2 10 "fnA")),
        Value.str "/path", Value.fn (Func.wrapped3 (Func.handler 3 11 "fnB"))]] ∧
    ∃ wl, [Value.arr [Value.fn (Func.wrapped2 (Func.handler 2 10 "fnA")),
        Value.str "/path", Value.fn (Func.wrapped3 (Func.handler 3 11 "fnB"))]].get? 0 =
        some (Value.arr wl) ∧
      wl.length = [Value.fn (Func.handler 2 10 "fnA"), Value.str "/path",
        Value.fn (Func.handler 3 11 "fnB")].length ∧
      ∀ (j : Nat) (hj : j < [Value.fn (Func.handler 2 10 "fnA"), Value.str "/path",
          Value.fn (Func.handler 3 11 "fnB")].length) (hj2 : j < wl.length),
        ElemWrapped ([Value.fn (Func.handler 2 10 "fnA"), Value.str "/path",
          Value.fn (Func.handler 3 11 "fnB")].get ⟨j, hj⟩) (wl.get ⟨j, hj2⟩) :=
  ⟨rfl, rfl,
    c6_array_argument
      [Value.arr [Value.fn (Func.handler 2 10 "fnA"), Value.str "/path",
        Value.fn (Func.handler 3 11 "fnB")]]
      0
      [Value.fn (Func.handler 2 10 "fnA"), Value.str "/path",
        Value.fn (Func.handler 3 11 "fnB")]
      [Value.arr [Value.fn (Func.wrapped2 (Func.handler 2 10 "fnA")), Value.str "/path",
        Value.fn (Func.wrapped3 (Func.handler 3 11 "fnB"))]]
      rfl rfl⟩

/-- C7: the patched registration method calls the original method with
the same receiver, the same argument count and the same order,
substituting only function-typed arguments (and function elements of
array arguments) with wrapped versions and passing every other argument
through identically. -/
theorem c7_patched_call_shape (thisVal : Value) (args w : List Value)
    (hw : wrapUseArgs args = Except.ok w) :
    runPatchedMiddleware thisVal args =
      Except.ok { receiver := thisVal, callArgs := w } ∧
    w.length = args.length ∧
    ∀ (j : Nat) (hj : j < args.length) (hj2 : j < w.length),
      ArgWrapped (args.get ⟨j, hj⟩) (w.get ⟨j, hj2⟩) := by
  obtain ⟨hlen, hget⟩ := mapExcept_ok_get wrapValue args w hw
  refine ⟨by simp [runPatchedMiddleware, hw], hlen, ?_⟩
  intro j hj hj2
  exact wrapValue_argWrapped _ _ (hget j hj hj2)

/-- Witness for C7 at a concrete mixed argument list. -/
theorem c7_patched_call_shape_witness :
    wrapUseArgs [Value.str "/admin", Value.fn (Func.handler 4 20 "errh"), Value.num 7] =
      Except.ok [Value.str "/admin",
        Value.fn (Func.wrapped4 (Func.handler 4 20 "errh")), Value.num 7] ∧
    (runPatchedMiddleware (Value.obj 5)
        [Value.str "/admin", Value.fn (Func.handler 4 20 "errh"), Value.num 7] =
      Except.ok (⟨Value.obj 5, [Value.str "/admin",
        Value.fn (Func.wrapped4 (Func.handler 4 20 "errh")), Value.num 7]⟩ :
          PatchedInvoke) ∧
    [Value.str "/admin", Value.fn (Func.wrapped4 (Func.handler 4 20 "errh")),
        Value.num 7].length =
      [Value.str "/admin", Value.fn (Func.handler 4 20 "errh"), Value.num 7].length ∧
    ∀ (j : Nat)
      (hj : j < [Value.str "/admin", Value.fn (Func.handler 4 20 "errh"),
        Value.num 7].length)
      (hj2 : j < [Value.str "/admin", Value.fn (Func.wrapped4 (Func.handler 4 20 "errh")),
        Value.num 7].length),
      ArgWrapped
        ([Value.str "/admin", Value.fn (Func.handler 4 20 "errh"),
          Value.num 7].get ⟨j, hj⟩)
        ([Value.str "/admin", Value.fn (Func.wrapped4 (Func.handler 4 20 "errh")),
          Value.num 7].get ⟨j, hj2⟩)) :=
  ⟨rfl,
    c7_patched_call_shape (Value.obj 5)
      [Value.str "/admin", Value.fn (Func.handler 4 20 "errh"), Value.num 7]
      [Value.str "/admin", Value.fn (Func.wrapped4 (Func.handler 4 20 "errh")),
        Value.num 7]
      rfl⟩

/-- C8: after `setupOnce` with an application object and a configured
list of verb methods, every verb method not in that list (and distinct
from `use`) keeps its original unpatched function; and with no methods
configured, only `use` is patched while every other method keeps its
original function. -/
theorem c8_unconfigured_methods_unpatched (app : Application)
    (methods : List String) (m : String) (hm : m ∉ methods) (hu : m ≠ "use") :
    (∃ a2, (setupOnce { appOpt := some app, methodsOpt := some methods }).patchedApp
        = some a2 ∧ a2 m = app m) ∧
    (∃ a3, (setupOnce { appOpt := some app, methodsOpt := none }).patchedApp
        = some a3 ∧ a3 "use" = AppFn.patched (app "use") ∧ a3 m = app m) := by
  constructor
  · refine ⟨_, rfl, ?_⟩
    show routeMiddlewares (instrumentMiddlewares app) methods m = app m
    rw [routeMiddlewares_not_mem methods _ m hm]
    simp [instrumentMiddlewares, patchMiddleware, hu]
  · refine ⟨_, rfl, ?_, ?_⟩
    · show routeMiddlewares (instrumentMiddlewares app) [] "use" =
        AppFn.patched (app "use")
      simp [routeMiddlewares, instrumentMiddlewares, patchMiddleware]
    · show routeMiddlewares (instrumentMiddlewares app) [] m = app m
      simp [routeMiddlewares, instrumentMiddlewares, patchMiddleware, hu]

/-- Witness for C8 at a concrete application with `methods = ["get"]`
and the unconfigured verb `post`. -/
theorem c8_unconfigured_methods_unpatched_witness :
    ("post" ∉ ["get"] ∧ "post" ≠ "use") ∧
    ((∃ a2, (setupOnce ⟨some (fun _ => AppFn.original 0),
          some ["get"]⟩).patchedApp = some a2 ∧
        a2 "post" = (fun _ => AppFn.original 0 : Application) "post") ∧
    (∃ a3, (setupOnce ⟨some (fun _ => AppFn.original 0),
          none⟩).patchedApp = some a3 ∧
        a3 "use" = AppFn.patched ((fun _ => AppFn.original 0 : Application) "use") ∧
        a3 "post" = (fun _ => AppFn.original 0 : Application) "post")) :=
  ⟨⟨by decide, by decide⟩,
    c8_unconfigured_methods_unpatched (fun _ => AppFn.original 0) ["get"] "post"
      (by decide) (by decide)⟩

end SentryExpress
